import Mathlib

/-!
Shallow embedding of the TITO real-time hydrologic forecasting orchestrator
(src/orchestrator.py and src/tito_utils) in Lean 4.

Timestamps are modelled as integer minutes (minutes since an arbitrary epoch;
in concrete scenarios we count minutes since 2024-07-01 00:00 UTC, so that
2024-07-04 09:00 is 4860).  The file system is modelled as lists of files
tagged with the timestamp parsed from their name.
-/

namespace TITO

/-! ### TimeWindowPlanner (orchestrator.py, main, lines 113-148) -/

/-- The cycle clock derived in `main`: all fields are fixed offsets from the
reference instant rounded down to the top of the hour. -/
structure CycleClock where
  current : Int
  systemStart : Int
  systemStateEnd : Int
  systemWarmEnd : Int
  systemStartForecast : Int
  systemEnd : Int
  failTime : Int
deriving Repr, DecidableEq

/-- Embedding of the timestamp derivation in `main` (orchestrator.py lines
120-148): the reference instant `ref` (minutes, non-negative) is rounded down
to the whole hour (`currentTime.replace(minute=0, second=0, microsecond=0)`),
then `systemStartTime = current - 270 min`, `systemStateEndTime = current -
210 min`, `systemWarmEndTime = current - 240 min`, `systemStartLRTime =
current`, `systemEndTime = current + 360 min`, `failTime = current - 6 h`. -/
def timeWindowPlanner (ref : Nat) : CycleClock :=
  let current : Int := ((60 * (ref / 60) : Nat) : Int)
  { current := current
    systemStart := current - 270
    systemStateEnd := current - 210
    systemWarmEnd := current - 240
    systemStartForecast := current
    systemEnd := current + 360
    failTime := current - 360 }

/-! ### ArchiveReconciler (cleanup_precip: orchestrator.py lines 283-347 and
src/tito_utils/file_utils/cleanup.py lines 6-70; both copies are identical) -/

/-- Kind of a precipitation file, as classified by `cleanup_precip`
("qpe" in name, elif "qpf" in name, else neither). -/
inductive PKind where
  | qpe
  | qpf
  | other
deriving Repr, DecidableEq

/-- A precipitation file, reduced to its classification and the timestamp
parsed from its name by `get_geotiff_datetime`. -/
structure PFile where
  kind : PKind
  ts : Int
deriving Repr, DecidableEq

/-- Embedding of `cleanup_precip(current_datetime, failTime, precipFolder,
qpf_store_path)`.  Returns the contents of the working precip folder and of
the qpf store after the pass, mirroring the four steps of the source:
1. delete QPE files with timestamp `< failTime - 3.5h`;
2. copy QPF files with timestamp `< current` into the store, then
   unconditionally `os.remove` every QPF file (the remove in the source is
   outside the timestamp guard);
3. delete QPE files with timestamp `> current - 4h`;
4. delete store files with timestamp `< current - 4h`. -/
def cleanup_precip (current failTime : Int) (folder store : List PFile) :
    List PFile × List PFile :=
  let folder1 := folder.filter fun f => !(f.kind = PKind.qpe && f.ts < failTime - 210)
  let store1 := store ++ folder.filter fun f => f.kind = PKind.qpf && f.ts < current
  let folder2 := folder1.filter fun f => !(f.kind = PKind.qpf)
  let folder3 := folder2.filter fun f => !(f.kind = PKind.qpe && f.ts > current - 240)
  let store2 := store1.filter fun f => !(f.ts < current - 240)
  (folder3, store2)

end TITO

namespace TITO

/-! ### Claim C1 -/

/-- C1 counterexample.  At reference instant 4880 (2024-07-04 09:20, so the
rounded hour `current` is 4860 = 2024-07-04 09:00), the claimed ordering
invariant `systemStart < systemStateEnd < systemWarmEnd` fails: the code sets
`systemStateEnd = current - 210` and `systemWarmEnd = current - 240`, so
`systemStateEnd > systemWarmEnd`. -/
theorem C1_counterexample :
    ¬ ((timeWindowPlanner 4880).systemStart < (timeWindowPlanner 4880).systemStateEnd ∧
       (timeWindowPlanner 4880).systemStateEnd < (timeWindowPlanner 4880).systemWarmEnd) := by
  decide

/-- C1 (amended).  For every reference instant, after rounding down to the top
of the hour, the derived CycleClock fields are exactly the fixed offsets from
`current` (systemStart = current - 270 min, systemStateEnd = current - 210 min,
systemWarmEnd = current - 240 min, systemStartForecast = current, systemEnd =
current + 360 min, failTime = current - 6h) and they satisfy the ordering
invariant `systemStart < systemWarmEnd < systemStateEnd ≤ systemStartForecast
< systemEnd` and `failTime ≤ systemStart`. -/
theorem C1_offsets_and_order (ref : Nat) :
    (timeWindowPlanner ref).current = ((60 * (ref / 60) : Nat) : Int) ∧
    (timeWindowPlanner ref).systemStart = (timeWindowPlanner ref).current - 270 ∧
    (timeWindowPlanner ref).systemStateEnd = (timeWindowPlanner ref).current - 210 ∧
    (timeWindowPlanner ref).systemWarmEnd = (timeWindowPlanner ref).current - 240 ∧
    (timeWindowPlanner ref).systemStartForecast = (timeWindowPlanner ref).current ∧
    (timeWindowPlanner ref).systemEnd = (timeWindowPlanner ref).current + 360 ∧
    (timeWindowPlanner ref).failTime = (timeWindowPlanner ref).current - 360 ∧
    (timeWindowPlanner ref).systemStart < (timeWindowPlanner ref).systemWarmEnd ∧
    (timeWindowPlanner ref).systemWarmEnd < (timeWindowPlanner ref).systemStateEnd ∧
    (timeWindowPlanner ref).systemStateEnd ≤ (timeWindowPlanner ref).systemStartForecast ∧
    (timeWindowPlanner ref).systemStartForecast < (timeWindowPlanner ref).systemEnd ∧
    (timeWindowPlanner ref).failTime ≤ (timeWindowPlanner ref).systemStart := by
  simp only [timeWindowPlanner]
  refine ⟨trivial, trivial, trivial, trivial, trivial, trivial, trivial, ?_, ?_, ?_, ?_, ?_⟩ <;>
    omega

/-! ### Claim C8 -/

/-- C8.  For every initial working-folder and store contents, after one
`cleanup_precip` pass the working folder contains no Observed (qpe) file with
timestamp `< failTime - 3.5h`, no Forecast (qpf) file with timestamp
`< current` (in fact no Forecast file at all survives), and no Observed file
with timestamp `> current - 4h`. -/
theorem C8_reconciler_invariant (current failTime : Int) (folder store : List PFile)
    (f : PFile) (hf : f ∈ (cleanup_precip current failTime folder store).1) :
    ¬ (f.kind = PKind.qpe ∧ f.ts < failTime - 210) ∧
    ¬ (f.kind = PKind.qpf ∧ f.ts < current) ∧
    ¬ (f.kind = PKind.qpe ∧ f.ts > current - 240) := by
  simp only [cleanup_precip, List.mem_filter] at hf
  obtain ⟨⟨⟨hmem, h1⟩, h2⟩, h3⟩ := hf
  simp only [Bool.not_eq_true', Bool.and_eq_false_iff, decide_eq_false_iff_not,
    decide_eq_true_eq, not_lt] at h1 h2 h3
  refine ⟨?_, ?_, ?_⟩ <;> rintro ⟨hk, hts⟩
  · rcases h1 with h1 | h1 <;> [exact h1 hk; omega]
  · exact h2 hk
  · rcases h3 with h3 | h3 <;> [exact h3 hk; omega]

/-- C8 witness: a concrete Observed file that survives the pass (timestamp
4500 at `current = 4860`, `failTime = 4500`) satisfies all three bounds. -/
theorem C8_reconciler_invariant_witness :
    ¬ ((⟨PKind.qpe, 4500⟩ : PFile).kind = PKind.qpe ∧
        (⟨PKind.qpe, 4500⟩ : PFile).ts < 4500 - 210) ∧
    ¬ ((⟨PKind.qpe, 4500⟩ : PFile).kind = PKind.qpf ∧
        (⟨PKind.qpe, 4500⟩ : PFile).ts < 4860) ∧
    ¬ ((⟨PKind.qpe, 4500⟩ : PFile).kind = PKind.qpe ∧
        (⟨PKind.qpe, 4500⟩ : PFile).ts > 4860 - 240) :=
  C8_reconciler_invariant 4860 4500 [⟨PKind.qpe, 4500⟩] [] ⟨PKind.qpe, 4500⟩ (by decide)

/-! ### Claim C5 -/

/-- C5 evaluation at the failing input.  A Forecast (qpf) file whose timestamp
equals `current` (4860 = 2024-07-04 09:00) is deleted from the working folder
by `cleanup_precip` even though it was never copied into the durable store:
the resulting folder and store are both empty.  In the source the
`os.remove(precipFolder + qpf)` call sits outside the
`if geotiff_datetime < current_datetime` guard, so every qpf file is removed,
while only those with timestamp `< current` are copied first.  This
contradicts the claim (and the pass's own log message, which announces
deleting only QPF files older than the current time). -/
theorem C5_qpf_at_current_removed_uncopied :
    cleanup_precip 4860 4500 [⟨PKind.qpf, 4860⟩] [] = ([], []) := by
  decide

/-! ### GapFiller (get_new_precip / get_gpm_files: orchestrator.py lines
383-433 and 495-655) -/

/-- Embedding of `get_gpm_files(precipFolder, initial_timestamp,
final_timestamp, server, email)` (orchestrator.py lines 383-433), reduced to
the list of timestamps of the files it writes.  The loop sets `final_date =
final_timestamp + 30min` and runs `current_date` from `initial_timestamp`
while `current_date < final_date`, writing the file for `final_time_gridout =
current_date + 30min` each iteration and stepping 30 minutes. -/
def get_gpm_files (initial final : Int) : List Int :=
  if initial < final + 30 then (initial + 30) :: get_gpm_files (initial + 30) final
  else []
termination_by (final + 30 - initial).toNat
decreasing_by omega

/-- The timestamps produced by `get_gpm_files` are exactly the 30-minute grid
points of the half-open-below span `(initial, final + 30]`. -/
theorem mem_get_gpm_files (initial final : Int) :
    ∀ t : Int, (30:Int) ∣ final - initial →
      (t ∈ get_gpm_files initial final ↔
        initial < t ∧ t ≤ final + 30 ∧ (30:Int) ∣ t - initial) := by
  induction initial, final using get_gpm_files.induct with
  | case1 i f h ih =>
    intro t h30
    rw [get_gpm_files, if_pos h]
    have h30' : (30:Int) ∣ f - (i + 30) := by omega
    rw [List.mem_cons, ih t h30']
    constructor
    · rintro (rfl | ⟨h1, h2, h3⟩) <;> constructor <;> omega
    · rintro ⟨h1, h2, h3⟩
      omega
  | case2 i f h =>
    intro t h30
    rw [get_gpm_files, if_neg h]
    simp only [List.not_mem_nil, false_iff]
    rintro ⟨h1, h2, h3⟩
    omega

/-- Embedding of the `missing_dates` accumulation loops of `get_new_precip`
(orchestrator.py lines 531-536, 569-574, 609-618): starting from
`formatted_latest_pptfile + 30min` (resp. `initial_time + 30min`), append
`next_timestamp` while `next_timestamp < nowcast_older` in 30-minute steps. -/
def missing_dates (next stop : Int) : List Int :=
  if next < stop then next :: missing_dates (next + 30) stop
  else []
termination_by (stop - next).toNat
decreasing_by omega

theorem missing_dates_eq_nil (next stop : Int) (h : ¬ next < stop) :
    missing_dates next stop = [] := by
  rw [missing_dates, if_neg h]

/-- The dates collected by a `missing_dates` loop are exactly the 30-minute
grid points of `[next, stop)`. -/
theorem mem_missing_dates (next stop : Int) :
    ∀ t : Int, t ∈ missing_dates next stop ↔
      next ≤ t ∧ t < stop ∧ (30:Int) ∣ t - next := by
  induction next, stop using missing_dates.induct with
  | case1 n s h ih =>
    intro t
    rw [missing_dates, if_pos h, List.mem_cons, ih t]
    constructor
    · rintro (rfl | ⟨h1, h2, h3⟩) <;> constructor <;> omega
    · rintro ⟨h1, h2, h3⟩
      omega
  | case2 n s h =>
    intro t
    rw [missing_dates, if_neg h]
    simp only [List.not_mem_nil, false_iff]
    rintro ⟨h1, h2, h3⟩
    omega

/-- Embedding of `max(tif_files, key=...)`: the latest qpe timestamp in the working folder,
`none` when the folder holds no qpe file. -/
def latestTs : List Int → Option Int
  | [] => none
  | h :: t => some (t.foldl max h)

/-- Embedding of the remote-download decisions of `get_new_precip(current,
server, precipFolder, email, HindCastMode, qpf_store_path)` (orchestrator.py
lines 495-655): the list of `(initial_timestamp, final_timestamp)` argument
pairs passed to `get_gpm_files`, in order.  `qpeFiles` is the list of qpe
timestamps present in the working folder and `serverHas d` models whether the
remote listing for `d` contains a file whose parsed timestamp is `d`.
With `nowcast_older = current - 3.5h`:
* empty folder: one bulk request with `initial_time_server = current - 9.5h -
  30min` and `nowcast_older_server = nowcast_older - 60min`;
* `latest < nowcast_older` and gap `≤ 60min`: for each missing date `d`
  (strictly between `latest` and `nowcast_older`) present on the server, a
  request `(d - 30min, nowcast_older - 60min)`;
* `latest < nowcast_older` and gap `> 60min`: one bulk request
  `(latest, nowcast_older - 60min)` (missing dates are then only patched from
  the qpf store, with no further downloads);
* `latest ≥ nowcast_older`: no request. -/
def get_new_precip_requests (current : Int) (qpeFiles : List Int)
    (serverHas : Int → Bool) : List (Int × Int) :=
  let nowcastOlder := current - 210
  match latestTs qpeFiles with
  | none => [(current - 570 - 30, nowcastOlder - 60)]
  | some latest =>
    if latest < nowcastOlder then
      if nowcastOlder - latest ≤ 60 then
        ((missing_dates (latest + 30) nowcastOlder).filter serverHas).map
          (fun d => (d - 30, nowcastOlder - 60))
      else [(latest, nowcastOlder - 60)]
    else []

/-- A remote listing that contains every timestamp. -/
def serverAll : Int → Bool := fun _ => true

/-! ### Claim C3 -/

/-- C3 counterexample.  With `current = 2024-07-04 09:00` (minute 4860) and an
empty working folder, `get_new_precip` issues exactly one bulk request,
`get_gpm_files(current - 10h, current - 4.5h)`, whose produced file
timestamps do not include `2024-07-04 05:30` (minute 4650 = current - 3.5h):
the produced span ends at `2024-07-04 05:00` (minute 4620 = current - 4h),
not at `current - 3.5h` as claimed. -/
theorem C3_counterexample :
    get_new_precip_requests 4860 [] serverAll = [(4260, 4590)] ∧
    (4650 : Int) ∉ get_gpm_files 4260 4590 ∧
    (4620 : Int) ∈ get_gpm_files 4260 4590 := by
  refine ⟨rfl, ?_, ?_⟩
  · rw [mem_get_gpm_files 4260 4590 4650 (by decide)]
    omega
  · rw [mem_get_gpm_files 4260 4590 4620 (by decide)]
    omega

/-- C3 (amended).  For every current instant, when the working folder contains
no Observed file the gap filler issues exactly one bulk-download request, and
the produced file timestamps are exactly the 30-minute grid of the span
`[current - 9.5h, current - 4h]` (ending at `current - 4h`, not at the
`current - 3.5h` horizon). -/
theorem C3_empty_folder_bulk_span (current : Int) (serverHas : Int → Bool) :
    get_new_precip_requests current [] serverHas = [(current - 600, current - 270)] ∧
    ∀ t : Int,
      t ∈ get_gpm_files (current - 600) (current - 270) ↔
        current - 570 ≤ t ∧ t ≤ current - 240 ∧ (30:Int) ∣ t - current := by
  constructor
  · simp only [get_new_precip_requests, latestTs, List.cons.injEq, Prod.mk.injEq, and_true]
    constructor <;> ring
  · intro t
    rw [mem_get_gpm_files (current - 600) (current - 270) t (by omega)]
    omega

/-! ### Claim C4 -/

/-- C4 counterexample.  At the claim's own example — latest Observed file at
`2024-07-04 05:00` (minute 4620), horizon `= current - 3.5h = 2024-07-04
05:30` (minute 4650), `current = 09:00` (minute 4860) — the gap is 30 minutes
(the `≤ 60min` tier), yet `get_new_precip` issues no download request at all
(even when the remote listing has every file): the `missing_dates` loop from
`latest + 30min` strictly below the horizon is empty, and no request covering
`[latest, horizon]` is ever built. -/
theorem C4_counterexample :
    get_new_precip_requests 4860 [4620] serverAll = [] := by
  simp only [get_new_precip_requests, latestTs, List.foldl]
  norm_num
  rw [missing_dates_eq_nil 4650 4650 (by omega)]
  simp

/-- C4 (amended).  When the latest Observed file is older than the horizon
`current - 3.5h` by at most 60 minutes, the gap filler does not issue a
single `[latest, horizon]` bulk request; instead it issues one request per
30-minute timestamp strictly between `latest` and the horizon that the remote
listing contains — each request being `(d - 30min, horizon - 60min)`, which
produces files exactly for the grid span `[d, horizon - 30min]` — and in
particular, when the gap is exactly 30 minutes (latest `= current - 4h`), no
download request is issued at all. -/
theorem C4_small_gap_requests (current latest : Int) (serverHas : Int → Bool)
    (h30c : (30:Int) ∣ current) (h30l : (30:Int) ∣ latest)
    (h1 : latest < current - 210) (h2 : current - 210 - latest ≤ 60) :
    (latest = current - 240 →
      get_new_precip_requests current [latest] serverHas = []) ∧
    (∀ a b : Int,
      (a, b) ∈ get_new_precip_requests current [latest] serverHas ↔
        ∃ d : Int, latest < d ∧ d < current - 210 ∧ (30:Int) ∣ d - latest ∧
          serverHas d = true ∧ a = d - 30 ∧ b = current - 270) ∧
    (∀ d : Int, latest < d → d < current - 210 → (30:Int) ∣ d - latest →
      ∀ t : Int, t ∈ get_gpm_files (d - 30) (current - 270) ↔
        d - 30 < t ∧ t ≤ current - 240 ∧ (30:Int) ∣ t - d) := by
  refine ⟨?_, ?_, ?_⟩
  · intro hlat
    subst hlat
    simp only [get_new_precip_requests, latestTs, List.foldl]
    rw [if_pos (by omega), if_pos (by omega),
      missing_dates_eq_nil (current - 240 + 30) (current - 210) (by omega)]
    rfl
  · intro a b
    simp only [get_new_precip_requests, latestTs, List.foldl]
    rw [if_pos (by omega), if_pos (by omega)]
    simp only [List.mem_map, List.mem_filter, mem_missing_dates, Prod.mk.injEq]
    constructor
    · rintro ⟨d, ⟨⟨hd1, hd2, hd3⟩, hd4⟩, hd5, hd6⟩
      exact ⟨d, by omega, by omega, by omega, hd4, by omega, by omega⟩
    · rintro ⟨d, hd1, hd2, hd3, hd4, hd5, hd6⟩
      exact ⟨d, ⟨⟨by omega, by omega, by omega⟩, hd4⟩, by omega, by omega⟩
  · intro d hd1 hd2 hd3 t
    rw [mem_get_gpm_files (d - 30) (current - 270) t (by omega)]
    omega

/-! ### StateAvailabilityResolver (find_available_states:
src/tito_utils/ef5/ef5_routines.py lines 37-59, identical to the inline loop
of orchestrator.py main, lines 176-209) -/

/-- One round of the inner `for state in modelStates` check: the set of
snapshots at time `T` is complete iff `is_non_zero_file` holds for every
required state variable.  `present st T` abstracts
`is_non_zero_file(statesPath + st + "_" + T + ".tif")`. -/
def allStatesPresent (present : String → Int → Bool) (modelStates : List String)
    (T : Int) : Bool :=
  modelStates.all fun st => present st T

/-- Embedding of `find_available_states(statesPath, modelStates,
systemStartTime, failTime)`: while not all states are present at
`realSystemStartTime` and `realSystemStartTime > failTime`, decrement by 30
minutes; returns `(foundAllStates, realSystemStartTime)`. -/
def find_available_states (present : String → Int → Bool) (modelStates : List String)
    (realSystemStartTime failTime : Int) : Bool × Int :=
  if realSystemStartTime > failTime then
    if allStatesPresent present modelStates realSystemStartTime then
      (true, realSystemStartTime)
    else
      find_available_states present modelStates (realSystemStartTime - 30) failTime
  else (false, realSystemStartTime)
termination_by (realSystemStartTime - failTime).toNat
decreasing_by omega

/-- When the search succeeds it returns the most recent 30-minute-decrement
time not past `failTime` at which all states are present. -/
theorem find_available_states_true (present : String → Int → Bool) (modelStates : List String)
    (T failTime : Int) :
    ∀ T' : Int, find_available_states present modelStates T failTime = (true, T') →
      allStatesPresent present modelStates T' = true ∧ T' ≤ T ∧ failTime < T' ∧
      (30:Int) ∣ T - T' ∧
      ∀ t : Int, T' < t → t ≤ T → (30:Int) ∣ T - t →
        allStatesPresent present modelStates t = false := by
  induction T, failTime using find_available_states.induct present modelStates with
  | case1 T failTime h hp =>
    intro T' hres
    rw [find_available_states, if_pos h, if_pos hp] at hres
    obtain ⟨-, rfl⟩ := Prod.mk.injEq .. ▸ hres
    refine ⟨hp, le_refl _, h, by omega, ?_⟩
    intro t h1 h2 h3
    omega
  | case2 T failTime h hp ih =>
    intro T' hres
    rw [find_available_states, if_pos h, if_neg hp] at hres
    obtain ⟨hpres, hle, hgt, hdvd, hmax⟩ := ih T' hres
    refine ⟨hpres, by omega, hgt, by omega, ?_⟩
    intro t h1 h2 h3
    rcases lt_or_le (T - 30) t with hcase | hcase
    · have : t = T := by omega
      subst this
      exact Bool.eq_false_iff.mpr hp
    · exact hmax t h1 hcase (by omega)
  | case3 T failTime h =>
    intro T' hres
    rw [find_available_states, if_neg h] at hres
    exact absurd (congrArg Prod.fst hres) (by simp)

/-- When the search fails, no 30-minute-decrement time in
`(failTime, T]` has a complete snapshot set. -/
theorem find_available_states_false (present : String → Int → Bool) (modelStates : List String)
    (T failTime : Int) :
    ∀ T' : Int, find_available_states present modelStates T failTime = (false, T') →
      ∀ t : Int, failTime < t → t ≤ T → (30:Int) ∣ T - t →
        allStatesPresent present modelStates t = false := by
  induction T, failTime using find_available_states.induct present modelStates with
  | case1 T failTime h hp =>
    intro T' hres
    rw [find_available_states, if_pos h, if_pos hp] at hres
    exact absurd (congrArg Prod.fst hres) (by simp)
  | case2 T failTime h hp ih =>
    intro T' hres t h1 h2 h3
    rw [find_available_states, if_pos h, if_neg hp] at hres
    rcases lt_or_le (T - 30) t with hcase | hcase
    · have : t = T := by omega
      subst this
      exact Bool.eq_false_iff.mpr hp
    · exact ih T' hres t h1 hcase (by omega)
  | case3 T failTime h =>
    intro T' hres t h1 h2 h3
    omega

/-- Start classification, as decided by orchestrator.py main lines 193-209. -/
inductive StartClass where
  | cold
  | warm
  | degraded
deriving Repr, DecidableEq

/-- The start classification and resolved start time derived in `main`
(orchestrator.py lines 176-209): cold start resets the resolved time to
`systemStartTime` itself; a successful search at an earlier time is a
degraded start with that earlier time; a successful search at
`systemStartTime` is a warm start. -/
def resolveStart (present : String → Int → Bool) (modelStates : List String)
    (systemStartTime failTime : Int) : StartClass × Int :=
  match find_available_states present modelStates systemStartTime failTime with
  | (false, _) => (StartClass.cold, systemStartTime)
  | (true, T) =>
    if T ≠ systemStartTime then (StartClass.degraded, T) else (StartClass.warm, T)

/-! ### Claim C2 -/

/-- C2.  For every states folder (`present`) and every set of required state
variables, the resolver returns Cold iff no 30-minute-aligned time in the
half-open interval `(failTime, systemStart]` has a complete snapshot set — and
then the resolved start time is `systemStart` itself; returns Warm iff
`systemStart` itself has a complete set (and then resolves to `systemStart`);
and otherwise returns Degraded with the most recent complete 30-minute-aligned
time `T < systemStart` as the resolved start time. -/
theorem C2_resolver (present : String → Int → Bool) (modelStates : List String)
    (systemStartTime failTime : Int)
    (hft : failTime < systemStartTime) (h30s : (30:Int) ∣ systemStartTime) :
    ((resolveStart present modelStates systemStartTime failTime).1 = StartClass.cold ↔
      ∀ t : Int, failTime < t → t ≤ systemStartTime → (30:Int) ∣ t →
        allStatesPresent present modelStates t = false) ∧
    ((resolveStart present modelStates systemStartTime failTime).1 = StartClass.cold →
      (resolveStart present modelStates systemStartTime failTime).2 = systemStartTime) ∧
    ((resolveStart present modelStates systemStartTime failTime).1 = StartClass.warm ↔
      allStatesPresent present modelStates systemStartTime = true) ∧
    ((resolveStart present modelStates systemStartTime failTime).1 = StartClass.warm →
      (resolveStart present modelStates systemStartTime failTime).2 = systemStartTime) ∧
    ((resolveStart present modelStates systemStartTime failTime).1 = StartClass.degraded →
      allStatesPresent present modelStates
          ((resolveStart present modelStates systemStartTime failTime).2) = true ∧
      failTime < (resolveStart present modelStates systemStartTime failTime).2 ∧
      (resolveStart present modelStates systemStartTime failTime).2 < systemStartTime ∧
      (30:Int) ∣ (resolveStart present modelStates systemStartTime failTime).2 ∧
      ∀ t : Int, (resolveStart present modelStates systemStartTime failTime).2 < t →
        t ≤ systemStartTime → (30:Int) ∣ t →
        allStatesPresent present modelStates t = false) := by
  rcases hfind : find_available_states present modelStates systemStartTime failTime with ⟨found, T⟩
  cases found
  · have hall := find_available_states_false present modelStates systemStartTime failTime T hfind
    have hres : resolveStart present modelStates systemStartTime failTime =
        (StartClass.cold, systemStartTime) := by
      rw [resolveStart, hfind]
    rw [hres]
    refine ⟨?_, fun _ => rfl, ?_, ?_, ?_⟩
    · exact ⟨fun _ t h1 h2 h3 => hall t h1 h2 (by omega), fun _ => rfl⟩
    · refine ⟨fun hcon => absurd hcon (by simp), fun hcon => ?_⟩
      exact absurd (hall systemStartTime hft le_rfl (by omega)) (by simp [hcon])
    · intro hcon; exact absurd hcon (by simp)
    · intro hcon; exact absurd hcon (by simp)
  · obtain ⟨hpres, hle, hgt, hdvd, hmax⟩ :=
      find_available_states_true present modelStates systemStartTime failTime T hfind
    by_cases hTs : T = systemStartTime
    · subst hTs
      have hres : resolveStart present modelStates T failTime = (StartClass.warm, T) := by
        rw [resolveStart, hfind]
        simp
      rw [hres]
      refine ⟨?_, ?_, ?_, fun _ => rfl, ?_⟩
      · refine ⟨fun hcon => absurd hcon (by simp), fun hforall => ?_⟩
        exact absurd (hforall T hgt le_rfl h30s) (by simp [hpres])
      · intro hcon; exact absurd hcon (by simp)
      · exact ⟨fun _ => hpres, fun _ => rfl⟩
      · intro hcon; exact absurd hcon (by simp)
    · have hres : resolveStart present modelStates systemStartTime failTime =
          (StartClass.degraded, T) := by
        rw [resolveStart, hfind]
        simp [hTs]
      rw [hres]
      have hTlt : T < systemStartTime := by omega
      have h30T : (30:Int) ∣ T := by omega
      refine ⟨?_, ?_, ?_, ?_, ?_⟩
      · refine ⟨fun hcon => absurd hcon (by simp), fun hforall => ?_⟩
        exact absurd (hforall T hgt (by omega) h30T) (by simp [hpres])
      · intro hcon; exact absurd hcon (by simp)
      · refine ⟨fun hcon => absurd hcon (by simp), fun hcon => ?_⟩
        exact absurd (hmax systemStartTime hTlt le_rfl (by omega)) (by simp [hcon])
      · intro hcon; exact absurd hcon (by simp)
      · intro _
        refine ⟨hpres, hgt, hTlt, h30T, ?_⟩
        intro t h1 h2 h3
        exact hmax t h1 h2 (by omega)

/-- A states folder in which every required variable has a non-empty snapshot
exactly at minute 4560 (2024-07-04 04:00). -/
def present4560 : String → Int → Bool := fun _ t => t == 4560

/-- The four required state variables of the WestAfrica configuration. -/
def modelStates4 : List String := ["crest_SM", "kwr_IR", "kwr_pCQ", "kwr_pOQ"]

/-- C2 witness: in the spec's end-to-end scenario shifted to the states grid
(`systemStart = 4590` = 2024-07-04 04:30, `failTime = 4500` = 03:00, all four
variables present at 4560 = 04:00 but not at 04:30), the resolver classifies
neither Cold nor Warm (hence Degraded). -/
theorem C2_resolver_witness :
    (resolveStart present4560 modelStates4 4590 4500).1 ≠ StartClass.cold ∧
    (resolveStart present4560 modelStates4 4590 4500).1 ≠ StartClass.warm := by
  have h := C2_resolver present4560 modelStates4 4590 4500 (by decide) (by decide)
  constructor
  · intro hcold
    have := (h.1.mp hcold) 4560 (by decide) (by decide) (by decide)
    exact absurd this (by decide)
  · intro hwarm
    have := h.2.2.1.mp hwarm
    exact absurd this (by decide)

/-- C4 witness: at `current = 4860` (2024-07-04 09:00) with the latest
Observed file at minute 4590 (04:30, a 60-minute gap to the 05:30 horizon)
and a remote listing containing everything, the request
`(4590, 4590)` — i.e. `get_gpm_files(04:30, 04:30)`, producing exactly the
single missing file at 05:00 — is issued. -/
theorem C4_small_gap_requests_witness :
    (4590, 4590) ∈ get_new_precip_requests 4860 [4590] serverAll ∧
    ((4620 : Int) ∈ get_gpm_files 4590 4590 ∧ (4650 : Int) ∉ get_gpm_files 4590 4590) := by
  have h := C4_small_gap_requests 4860 4590 serverAll (by decide) (by decide)
    (by decide) (by decide)
  refine ⟨(h.2.1 4590 4590).mpr ⟨4620, by decide, by decide, by decide, rfl, by decide, by decide⟩,
    ?_, ?_⟩
  · exact (h.2.2 4620 (by decide) (by decide) (by decide) 4620).mpr
      ⟨by decide, by decide, by decide⟩
  · intro hmem
    have := (h.2.2 4620 (by decide) (by decide) (by decide) 4650).mp hmem
    omega

/-! ### AlertDispatcher (send_state_alerts: src/tito_utils/ef5/ef5_routines.py
lines 62-119, and the inline alert logic of orchestrator.py main,
lines 193-209) -/

/-- Alert message content: class-specific subject/body built from the
resolved and planned start times ("Missing states from R to S. Starting model
with cold states." vs "Using states from R instead of S."). -/
inductive AlertMsg where
  | coldStart (realStart sysStart : Int)
  | olderStates (realStart sysStart : Int)
deriving Repr, DecidableEq

/-- Embedding of `send_state_alerts(foundAllStates, realSystemStartTime,
systemStartTime, currentTime, systemName, SEND_ALERTS, alert_recipients,
smtp_config)`: the list of `(recipient, message)` pairs passed to
`send_mail`, in order.  Exits early when `SEND_ALERTS` is false; sends the
cold-start message when no states were found, the older-states message when
an earlier time had to be used, and nothing when states were found on
time. -/
def send_state_alerts (SEND_ALERTS foundAllStates : Bool)
    (realSystemStartTime systemStartTime : Int) (alert_recipients : List String) :
    List (String × AlertMsg) :=
  if !SEND_ALERTS then []
  else if !foundAllStates then
    alert_recipients.map fun r =>
      (r, AlertMsg.coldStart realSystemStartTime systemStartTime)
  else if realSystemStartTime ≠ systemStartTime then
    alert_recipients.map fun r =>
      (r, AlertMsg.olderStates realSystemStartTime systemStartTime)
  else []

/-- Embedding of the inline alert logic of orchestrator.py `main` (lines
193-209): in the cold branch (`not foundAllStates`) the subject and message
are composed under `if SEND_ALERTS:` but the per-recipient `send_mail` loop
is commented out (lines 197-198), so nothing is sent; in the older-states
branch one `send_mail` per recipient is executed under `if SEND_ALERTS:`. -/
def mainStateAlerts (SEND_ALERTS foundAllStates : Bool)
    (realSystemStartTime systemStartTime : Int) (alert_recipients : List String) :
    List (String × AlertMsg) :=
  if !foundAllStates then []
  else if realSystemStartTime ≠ systemStartTime then
    if SEND_ALERTS then
      alert_recipients.map fun r =>
        (r, AlertMsg.olderStates realSystemStartTime systemStartTime)
    else []
  else []

/-! ### Claim C6 -/

/-- C6 counterexample.  In the orchestration path actually executed
(`main`), with alerting enabled, a Cold start (`foundAllStates = false`,
resolved time reset to `systemStart` = 4590) and one configured recipient,
no alert message is sent at all — the cold-branch send loop is commented out
— contradicting the claim that exactly one message per recipient is composed
and sent whenever alerting is enabled and the start class is Cold or
Degraded. -/
theorem C6_counterexample :
    mainStateAlerts true false 4590 4590 ["fixer1@company.com"] = [] := by
  rfl

/-- C6 (amended).  When alerting is enabled: on a Degraded start
(`foundAllStates = true`, `realStart ≠ systemStart`) exactly one
class-specific message per configured recipient is sent, both by the
`send_state_alerts` component and by `main`'s inline logic; on a Cold start
(`foundAllStates = false`) `send_state_alerts` sends exactly one cold-start
message per recipient, but `main`'s inline logic only composes the message
and sends nothing (its send loop is disabled).  When alerting is disabled or
the start is Warm (`foundAllStates = true` and `realStart = systemStart`),
neither sends anything. -/
theorem C6_alert_dispatch (SEND_ALERTS foundAllStates : Bool)
    (realStart sysStart : Int) (recipients : List String) :
    (SEND_ALERTS = true → foundAllStates = false →
      send_state_alerts SEND_ALERTS foundAllStates realStart sysStart recipients =
        recipients.map fun r => (r, AlertMsg.coldStart realStart sysStart)) ∧
    (SEND_ALERTS = true → foundAllStates = true → realStart ≠ sysStart →
      send_state_alerts SEND_ALERTS foundAllStates realStart sysStart recipients =
        recipients.map fun r => (r, AlertMsg.olderStates realStart sysStart)) ∧
    (SEND_ALERTS = false →
      send_state_alerts SEND_ALERTS foundAllStates realStart sysStart recipients = []) ∧
    (foundAllStates = true → realStart = sysStart →
      send_state_alerts SEND_ALERTS foundAllStates realStart sysStart recipients = []) ∧
    (foundAllStates = false →
      mainStateAlerts SEND_ALERTS foundAllStates realStart sysStart recipients = []) ∧
    (SEND_ALERTS = true → foundAllStates = true → realStart ≠ sysStart →
      mainStateAlerts SEND_ALERTS foundAllStates realStart sysStart recipients =
        recipients.map fun r => (r, AlertMsg.olderStates realStart sysStart)) ∧
    (SEND_ALERTS = false →
      mainStateAlerts SEND_ALERTS foundAllStates realStart sysStart recipients = []) ∧
    (foundAllStates = true → realStart = sysStart →
      mainStateAlerts SEND_ALERTS foundAllStates realStart sysStart recipients = []) := by
  refine ⟨?_, ?_, ?_, ?_, ?_, ?_, ?_, ?_⟩
  · rintro rfl rfl
    simp [send_state_alerts]
  · rintro rfl rfl hne
    simp [send_state_alerts, hne]
  · rintro rfl
    simp [send_state_alerts]
  · rintro rfl rfl
    simp [send_state_alerts]
  · rintro rfl
    simp [mainStateAlerts]
  · rintro rfl rfl hne
    simp [mainStateAlerts, hne]
  · rintro rfl
    cases foundAllStates <;> simp [mainStateAlerts]
  · rintro rfl rfl
    simp [mainStateAlerts]

/-- C6 witness: with alerting enabled, a Cold start and two recipients, the
`send_state_alerts` component sends exactly one cold-start message per
recipient; with a Degraded start (states from 4560 instead of 4590), `main`'s
inline logic sends exactly one older-states message per recipient. -/
theorem C6_alert_dispatch_witness :
    send_state_alerts true false 4590 4590 ["fixer1@company.com", "fixer2@company.com"] =
      [("fixer1@company.com", AlertMsg.coldStart 4590 4590),
       ("fixer2@company.com", AlertMsg.coldStart 4590 4590)] ∧
    mainStateAlerts true true 4560 4590 ["fixer1@company.com", "fixer2@company.com"] =
      [("fixer1@company.com", AlertMsg.olderStates 4560 4590),
       ("fixer2@company.com", AlertMsg.olderStates 4560 4590)] := by
  constructor
  · rw [(C6_alert_dispatch true false 4590 4590
      ["fixer1@company.com", "fixer2@company.com"]).1 rfl rfl]
    rfl
  · rw [(C6_alert_dispatch true true 4560 4590
      ["fixer1@company.com", "fixer2@company.com"]).2.2.2.2.2.1 rfl rfl (by decide)]
    rfl

/-! ### NowcastAdapter persistence fallback (run_ml_nowcast, except branch:
orchestrator.py lines 687-726).  A working folder of Observed (qpe) files is
modelled as a list of `(timestamp, content)` pairs, content being an opaque
identifier of the raster bytes; `shutil.copy2` to an existing name
overwrites. -/

/-- The `date_list` accumulation loop of the fallback (lines 695-699): from
`init = currentTime - 3.5h` while `current_date <= final = currentTime +
2.5h`, append and step 30 minutes. -/
def date_list (current_date final : Int) : List Int :=
  if current_date ≤ final then current_date :: date_list (current_date + 30) final
  else []
termination_by (final + 30 - current_date).toNat
decreasing_by omega

/-- The dates collected by `date_list` are exactly the 30-minute grid points
of the closed span `[current_date, final]`. -/
theorem mem_date_list (current_date final : Int) :
    ∀ t : Int, t ∈ date_list current_date final ↔
      current_date ≤ t ∧ t ≤ final ∧ (30:Int) ∣ t - current_date := by
  induction current_date, final using date_list.induct with
  | case1 i f h ih =>
    intro t
    rw [date_list, if_pos h, List.mem_cons, ih t]
    constructor
    · rintro (rfl | ⟨h1, h2, h3⟩) <;> constructor <;> omega
    · rintro ⟨h1, h2, h3⟩
      omega
  | case2 i f h =>
    intro t
    rw [date_list, if_neg h]
    simp only [List.not_mem_nil, false_iff]
    rintro ⟨h1, h2, h3⟩
    omega

/-- The most-recent-file search of the fallback (lines 701-714): scan all qpe
files, keeping the one with the largest parsed date (`None` when the folder
has no qpe file). -/
def mostRecentQpe (folder : List (Int × Nat)) : Option (Int × Nat) :=
  folder.foldl
    (fun acc f =>
      match acc with
      | none => some f
      | some m => if f.1 > m.1 then some f else some m)
    none

/-- Embedding of `shutil.copy2(src, path-for-timestamp-d)`: (over)writes the file named
for timestamp `d` with content `c`. -/
def writeFile (folder : List (Int × Nat)) (d : Int) (c : Nat) : List (Int × Nat) :=
  (d, c) :: folder.filter fun p => p.1 != d

/-- The content of the file named for timestamp `t`, if present. -/
def lookupFile (folder : List (Int × Nat)) (t : Int) : Option Nat :=
  (folder.find? fun p => p.1 == t).map fun p => p.2

/-- Embedding of the persistence fallback run in `run_ml_nowcast`'s `except`
branch on any predictor failure: build the date list `[currentTime - 3.5h,
currentTime + 2.5h]`, find the most recent qpe file, and `shutil.copy2` it
under every date's qpe name.  When the folder holds no qpe file at all,
`most_recent_file` is `None`; the code prints a warning but still enters the
copy loop, so `shutil.copy2(None, ...)` raises on the first date and no file
is written — modelled as `none`. -/
def persistenceFallback (currentTime : Int) (folder : List (Int × Nat)) :
    Option (List (Int × Nat)) :=
  match mostRecentQpe folder with
  | none => none
  | some m =>
    some ((date_list (currentTime - 210) (currentTime + 150)).foldl
      (fun acc d => writeFile acc d m.2) folder)

/-- The working folder after the nowcast stage's failure handling, as seen by
the rest of `main`: the broad `try/except` around the prep phase (lines
150-168) swallows the `TypeError` raised by the empty-folder fallback, so in
that case the folder is left unchanged. -/
def folderAfterFallback (currentTime : Int) (folder : List (Int × Nat)) :
    List (Int × Nat) :=
  match persistenceFallback currentTime folder with
  | none => folder
  | some f => f

theorem lookupFile_writeFile (a : List (Int × Nat)) (d : Int) (c : Nat) (t : Int) :
    lookupFile (writeFile a d c) t = if t = d then some c else lookupFile a t := by
  by_cases h : t = d
  · subst h
    simp [lookupFile, writeFile, List.find?]
  · have hb : (d == t) = false := by
      simp [Ne.symm h]
    simp only [lookupFile, writeFile, List.find?, hb, if_neg h]
    congr 1
    induction a with
    | nil => rfl
    | cons f rest ih =>
      by_cases hf : f.1 = d
      · have h1 : (f.1 != d) = false := by simp [hf]
        have h2 : (f.1 == t) = false := by simp [hf, Ne.symm h]
        simp [List.filter_cons, h1, List.find?, h2, ih]
      · have h1 : (f.1 != d) = true := by simp [hf]
        simp only [List.filter_cons, h1, if_pos rfl, List.find?]
        cases hft : (f.1 == t)
        · simp [ih]
        · rfl

theorem foldl_write_lookup (c : Nat) :
    ∀ (ds : List Int) (acc : List (Int × Nat)) (t : Int),
      (t ∈ ds ∨ lookupFile acc t = some c) →
      lookupFile (ds.foldl (fun a d => writeFile a d c) acc) t = some c := by
  intro ds
  induction ds with
  | nil =>
    intro acc t h
    rcases h with h | h
    · exact absurd h (List.not_mem_nil t)
    · exact h
  | cons d rest ih =>
    intro acc t h
    simp only [List.foldl_cons]
    apply ih
    rcases h with h | h
    · rcases List.mem_cons.mp h with rfl | hmem
      · right
        rw [lookupFile_writeFile]
        simp
      · left
        exact hmem
    · right
      rw [lookupFile_writeFile]
      by_cases ht : t = d
      · simp [ht]
      · simp [ht, h]

theorem mostRecentQpe_of_ne_nil (folder : List (Int × Nat)) (h : folder ≠ []) :
    ∃ m, mostRecentQpe folder = some m := by
  have aux : ∀ (l : List (Int × Nat)) (m : Int × Nat),
      ∃ m', l.foldl
        (fun acc f =>
          match acc with
          | none => some f
          | some m => if f.1 > m.1 then some f else some m)
        (some m) = some m' := by
    intro l
    induction l with
    | nil => exact fun m => ⟨m, rfl⟩
    | cons f rest ih =>
      intro m
      simp only [List.foldl_cons]
      by_cases hgt : f.1 > m.1
      · rw [if_pos hgt]
        exact ih f
      · rw [if_neg hgt]
        exact ih m
  match folder with
  | [] => exact absurd rfl h
  | f :: rest =>
    simp only [mostRecentQpe, List.foldl_cons]
    exact aux rest f

/-- After a fallback that found a most-recent qpe file, every timestamp of
the date list carries that file's content. -/
theorem lookup_folderAfterFallback (currentTime : Int) (folder : List (Int × Nat))
    (m : Int × Nat) (hm : mostRecentQpe folder = some m) (t : Int)
    (ht : t ∈ date_list (currentTime - 210) (currentTime + 150)) :
    lookupFile (folderAfterFallback currentTime folder) t = some m.2 := by
  unfold folderAfterFallback persistenceFallback
  rw [hm]
  exact foldl_write_lookup m.2 _ folder t (Or.inl ht)

/-! ### Claim C7 -/

/-- C7 counterexample.  With `current = 4860` (2024-07-04 09:00) and a
working folder containing no Observed file, the persistence fallback does not
complete the cadence: `most_recent_file` is `None`, the copy loop raises on
its first iteration, the surrounding `try/except` in `main` swallows the
error, and the timestamp `current - 3.5h` (minute 4650) still has no file
before run preparation executes. -/
theorem C7_counterexample :
    folderAfterFallback 4860 [] = [] ∧
    lookupFile (folderAfterFallback 4860 []) 4650 = none := by
  exact ⟨rfl, rfl⟩

/-- C7 (amended).  If the nowcast predictor fails and the working folder
contains at least one Observed file, the persistence fallback duplicates the
most recent Observed file under each timestamp of the forecast cadence, so
that afterwards every 30-minute timestamp from `current - 3.5h` through
`current + 2.5h` has a file in the working folder before run preparation
executes; if the folder contains no Observed file, the fallback itself raises
and the cadence is left incomplete. -/
theorem C7_persistence_completes_cadence (currentTime : Int) (folder : List (Int × Nat))
    (hne : folder ≠ []) :
    ∀ t : Int, currentTime - 210 ≤ t → t ≤ currentTime + 150 →
      (30:Int) ∣ t - (currentTime - 210) →
      (lookupFile (folderAfterFallback currentTime folder) t).isSome = true := by
  obtain ⟨m, hm⟩ := mostRecentQpe_of_ne_nil folder hne
  intro t h1 h2 h3
  rw [lookup_folderAfterFallback currentTime folder m hm t
    ((mem_date_list _ _ t).mpr ⟨h1, h2, h3⟩)]
  rfl

/-- C7 witness: with `current = 4860` and a single Observed file at minute
4620 (05:00), the timestamp 4650 (05:30 = current - 3.5h) has a file after
the fallback. -/
theorem C7_persistence_completes_cadence_witness :
    (lookupFile (folderAfterFallback 4860 [(4620, 3)]) 4650).isSome = true :=
  C7_persistence_completes_cadence 4860 [(4620, 3)] (by decide) 4650
    (by decide) (by decide) (by decide)

/-! ### Claim C10 -/

/-- C10.  When the persistence fallback runs and at least one Observed file
exists in the working folder (so the most-recent search returns a file `m`),
it copies `m` to every 30-minute timestamp from `current - 3.5h` through
`current + 2.5h` inclusive under the Observed naming convention: afterwards,
every such timestamp's file holds exactly `m`'s content — including
timestamps whose files already existed, which are overwritten, not skipped. -/
theorem C10_fallback_overwrites_whole_span (currentTime : Int) (folder : List (Int × Nat))
    (m : Int × Nat) (hm : mostRecentQpe folder = some m) :
    ∀ t : Int, currentTime - 210 ≤ t → t ≤ currentTime + 150 →
      (30:Int) ∣ t - (currentTime - 210) →
      lookupFile (folderAfterFallback currentTime folder) t = some m.2 := by
  intro t h1 h2 h3
  exact lookup_folderAfterFallback currentTime folder m hm t
    ((mem_date_list _ _ t).mpr ⟨h1, h2, h3⟩)

/-- C10 witness: with `current = 4860` and a folder holding a file at minute
4650 with content 0 and the most recent file at 4800 with content 7, the
fallback overwrites the already-present file at 4650 with content 7. -/
theorem C10_fallback_overwrites_whole_span_witness :
    lookupFile (folderAfterFallback 4860 [(4650, 0), (4800, 7)]) 4650 = some 7 :=
  C10_fallback_overwrites_whole_span 4860 [(4650, 0), (4800, 7)] (4800, 7)
    (by decide) 4650 (by decide) (by decide) (by decide)

end TITO

/-! ### RunPreparer (write_control_file: src/tito_utils/ef5/ef5_routines.py
lines 121-148, identical to the inline rendering loop of orchestrator.py
main, lines 213-236).  Each line of the template is passed through eight
sequential `re.sub` substitutions, one per recognized placeholder token; the
patterns are literal strings, so `re.sub` is literal leftmost
scan-and-replace, embedded here as `replaceAll` on character lists. -/

namespace TITO

/-- Whether `s` has an occurrence of `pat` as a contiguous substring. -/
def containsTok (pat s : List Char) : Bool :=
  match s with
  | [] => pat.isPrefixOf s
  | _ :: t => pat.isPrefixOf s || containsTok pat t

def replaceAll (pat rep s : List Char) : List Char :=
  if _h : pat.isPrefixOf s ∧ pat ≠ [] then
    rep ++ replaceAll pat rep (s.drop pat.length)
  else
    match s with
    | [] => []
    | c :: t => c :: replaceAll pat rep t
termination_by s.length
decreasing_by
  · have h1 := (List.isPrefixOf_iff_prefix.mp _h.1).length_le
    have h2 : 0 < pat.length := List.length_pos.mpr _h.2
    simp only [List.length_drop]
    omega
  · simp

theorem containsTok_of_isPrefixOf {pat s : List Char} (h : pat.isPrefixOf s = true) :
    containsTok pat s = true := by
  cases s with
  | nil => simpa [containsTok] using h
  | cons c t => simp [containsTok, h]

theorem containsTok_cons {pat t : List Char} (c : Char) (h : containsTok pat t = true) :
    containsTok pat (c :: t) = true := by
  simp [containsTok, h]

theorem containsTok_append_right {pat b : List Char} (a : List Char)
    (h : containsTok pat b = true) : containsTok pat (a ++ b) = true := by
  induction a with
  | nil => simpa using h
  | cons c rest ih => exact containsTok_cons c ih

theorem containsTok_drop {pat s : List Char} (n : Nat)
    (h : containsTok pat (s.drop n) = true) : containsTok pat s = true := by
  have := containsTok_append_right (s.take n) h
  rwa [List.take_append_drop] at this

theorem not_containsTok_cons {pat t : List Char} {c : Char}
    (h : containsTok pat (c :: t) = false) : containsTok pat t = false := by
  simp only [containsTok, Bool.or_eq_false_iff] at h
  exact h.2

theorem not_isPrefixOf_of_not_containsTok {pat s : List Char}
    (h : containsTok pat s = false) : pat.isPrefixOf s = false := by
  cases s with
  | nil => simpa [containsTok] using h
  | cons c t =>
    simp only [containsTok, Bool.or_eq_false_iff] at h
    exact h.1

/-- Occurrence-splitting: an occurrence in `a ++ b` is an occurrence in `b`,
or starts at some position `k` inside `a`. -/
theorem containsTok_append_cases (q : List Char) :
    ∀ (a b : List Char), containsTok q (a ++ b) = true →
      containsTok q b = true ∨
      ∃ k, k < a.length ∧ q.isPrefixOf (a.drop k ++ b) = true := by
  intro a
  induction a with
  | nil =>
    intro b h
    exact Or.inl (by simpa using h)
  | cons c rest ih =>
    intro b h
    rw [List.cons_append] at h
    simp only [containsTok, Bool.or_eq_true] at h
    rcases h with h1 | h2
    · exact Or.inr ⟨0, by simp, by simpa using h1⟩
    · rcases ih b h2 with h3 | ⟨k, hk, hpre⟩
      · exact Or.inl h3
      · exact Or.inr ⟨k + 1, by simpa using hk, by simpa using hpre⟩

/-- The head of an occurrence that starts inside `a` is a character of `a`. -/
theorem head_mem_of_isPrefixOf_drop {q0 : Char} {q' : List Char} (a b : List Char) (k : Nat)
    (hk : k < a.length) (h : (q0 :: q').isPrefixOf (a.drop k ++ b) = true) : q0 ∈ a := by
  have hne : a.drop k ≠ [] := by
    intro hcon
    rw [List.drop_eq_nil_iff] at hcon
    omega
  obtain ⟨hd, tl, heq⟩ := List.exists_cons_of_ne_nil hne
  rw [heq, List.cons_append] at h
  simp only [List.isPrefixOf, List.cons_append, Bool.and_eq_true, beq_iff_eq] at h
  have : hd ∈ a.drop k := by
    rw [heq]
    exact List.mem_cons_self hd tl
  rw [h.1]
  exact List.mem_of_mem_drop this

end TITO

namespace TITO

theorem replaceAll_pos {pat s : List Char} (rep : List Char)
    (h : pat.isPrefixOf s = true) (hne : pat ≠ []) :
    replaceAll pat rep s = rep ++ replaceAll pat rep (s.drop pat.length) := by
  rw [replaceAll, dif_pos ⟨h, hne⟩]

theorem replaceAll_nil (pat rep : List Char) : replaceAll pat rep [] = [] := by
  rw [replaceAll, dif_neg]
  rintro ⟨hpre, hne⟩
  cases pat with
  | nil => exact hne rfl
  | cons p0 prest => simp [List.isPrefixOf] at hpre

theorem replaceAll_cons_neg {pat : List Char} (rep : List Char) {c : Char} {t : List Char}
    (h : ¬ (pat.isPrefixOf (c :: t) = true ∧ pat ≠ [])) :
    replaceAll pat rep (c :: t) = c :: replaceAll pat rep t := by
  rw [replaceAll, dif_neg h]

/-- Prefix transfer: a string over characters absent from `rep` that is a
prefix of the substituted string was already a prefix of the original. -/
theorem isPrefixOf_of_isPrefixOf_replaceAll (pat rep : List Char) (hrep : rep ≠ []) :
    ∀ s q : List Char, (∀ c ∈ q, c ∉ rep) → q.isPrefixOf (replaceAll pat rep s) = true →
      q.isPrefixOf s = true := by
  intro s
  induction s using replaceAll.induct pat rep with
  | case1 s hmatch ih =>
    intro q hq hpre
    rw [replaceAll_pos rep hmatch.1 hmatch.2] at hpre
    cases q with
    | nil => simp [List.isPrefixOf]
    | cons q0 q' =>
      exfalso
      obtain ⟨r0, rt, rfl⟩ := List.exists_cons_of_ne_nil hrep
      rw [List.cons_append] at hpre
      simp only [List.isPrefixOf, Bool.and_eq_true, beq_iff_eq] at hpre
      exact hq q0 (List.mem_cons_self q0 q') (hpre.1 ▸ List.mem_cons_self r0 rt)
  | case2 h1 h2 =>
    intro q hq hpre
    rwa [replaceAll_nil pat rep] at hpre
  | case3 c t h1 h2 ih =>
    intro q hq hpre
    rw [replaceAll_cons_neg rep h1] at hpre
    cases q with
    | nil => simp [List.isPrefixOf]
    | cons q0 q' =>
      simp only [List.isPrefixOf, Bool.and_eq_true, beq_iff_eq] at hpre ⊢
      exact ⟨hpre.1, ih q' (fun ch hch => hq ch (List.mem_cons_of_mem q0 hch)) hpre.2⟩

end TITO

namespace TITO

/-- After substituting `pat` everywhere, no occurrence of `pat` remains
(for a replacement that is nonempty and shares no character with `pat`). -/
theorem containsTok_replaceAll_self (pat rep : List Char) (hpat : pat ≠ [])
    (hrep : rep ≠ []) (hdisj : ∀ c ∈ rep, c ∉ pat) :
    ∀ s : List Char, containsTok pat (replaceAll pat rep s) = false := by
  intro s
  induction s using replaceAll.induct pat rep with
  | case1 s hmatch ih =>
    rw [replaceAll_pos rep hmatch.1 hmatch.2]
    cases hcon : containsTok pat (rep ++ replaceAll pat rep (s.drop pat.length))
    · rfl
    · exfalso
      rcases containsTok_append_cases pat rep _ hcon with h1 | ⟨k, hk, hpre⟩
      · rw [ih] at h1
        exact Bool.false_ne_true h1
      · obtain ⟨p0, prest, rfl⟩ := List.exists_cons_of_ne_nil hpat
        exact hdisj p0 (head_mem_of_isPrefixOf_drop rep _ k hk hpre)
          (List.mem_cons_self p0 prest)
  | case2 h1 h2 =>
    rw [replaceAll_nil pat rep]
    obtain ⟨p0, prest, rfl⟩ := List.exists_cons_of_ne_nil hpat
    simp [containsTok, List.isPrefixOf]
  | case3 c t h1 h2 ih =>
    rw [replaceAll_cons_neg rep h1]
    cases hcon : containsTok pat (c :: replaceAll pat rep t)
    · rfl
    · exfalso
      simp only [containsTok, Bool.or_eq_true] at hcon
      rcases hcon with hcon | hcon
      · have : pat.isPrefixOf (c :: t) = true := by
          have hall : ∀ ch ∈ pat, ch ∉ rep := fun ch hch hcr => hdisj ch hcr hch
          have := isPrefixOf_of_isPrefixOf_replaceAll pat rep hrep (c :: t) pat hall
            (by rwa [replaceAll_cons_neg rep h1])
          exact this
        exact h1 ⟨this, hpat⟩
      · rw [ih] at hcon
        exact Bool.false_ne_true hcon

/-- Substituting some pattern `pat` cannot create an occurrence of a string
`q` that shares no character with the replacement. -/
theorem containsTok_replaceAll_of_not (pat rep q : List Char)
    (hrep : rep ≠ []) (hq : q ≠ []) (hdisj : ∀ c ∈ q, c ∉ rep) :
    ∀ s : List Char, containsTok q s = false →
      containsTok q (replaceAll pat rep s) = false := by
  intro s
  induction s using replaceAll.induct pat rep with
  | case1 s hmatch ih =>
    intro hno
    rw [replaceAll_pos rep hmatch.1 hmatch.2]
    cases hcon : containsTok q (rep ++ replaceAll pat rep (s.drop pat.length))
    · rfl
    · exfalso
      rcases containsTok_append_cases q rep _ hcon with h1 | ⟨k, hk, hpre⟩
      · have hnod : containsTok q (s.drop pat.length) = false := by
          cases hcd : containsTok q (s.drop pat.length)
          · rfl
          · rw [containsTok_drop pat.length hcd] at hno
            exact absurd hno (by simp)
        rw [ih hnod] at h1
        exact Bool.false_ne_true h1
      · obtain ⟨q0, q', rfl⟩ := List.exists_cons_of_ne_nil hq
        exact hdisj q0 (List.mem_cons_self q0 q')
          (head_mem_of_isPrefixOf_drop rep _ k hk hpre)
  | case2 h1 h2 =>
    intro hno
    rwa [replaceAll_nil pat rep]
  | case3 c t h1 h2 ih =>
    intro hno
    rw [replaceAll_cons_neg rep h1]
    cases hcon : containsTok q (c :: replaceAll pat rep t)
    · rfl
    · exfalso
      simp only [containsTok, Bool.or_eq_true] at hcon
      rcases hcon with hcon | hcon
      · have : q.isPrefixOf (c :: t) = true :=
          isPrefixOf_of_isPrefixOf_replaceAll pat rep hrep (c :: t) q hdisj
            (by rwa [replaceAll_cons_neg rep h1])
        rw [containsTok_of_isPrefixOf this] at hno
        exact absurd hno (by simp)
      · rw [ih (not_containsTok_cons hno)] at hcon
        exact Bool.false_ne_true hcon

/-- Passthrough: a string with no occurrence of the pattern is unchanged. -/
theorem replaceAll_of_not_containsTok (pat rep : List Char) :
    ∀ s : List Char, containsTok pat s = false → replaceAll pat rep s = s := by
  intro s
  induction s using replaceAll.induct pat rep with
  | case1 s hmatch ih =>
    intro hno
    rw [containsTok_of_isPrefixOf hmatch.1] at hno
    exact absurd hno (by simp)
  | case2 h1 h2 =>
    intro _
    exact replaceAll_nil pat rep
  | case3 c t h1 h2 ih =>
    intro hno
    rw [replaceAll_cons_neg rep h1, ih (not_containsTok_cons hno)]

/-- Substitution inserts the replacement wherever the pattern occurred. -/
theorem containsTok_rep_replaceAll (pat rep : List Char) (hpat : pat ≠ []) :
    ∀ s : List Char, containsTok pat s = true →
      containsTok rep (replaceAll pat rep s) = true := by
  intro s
  induction s using replaceAll.induct pat rep with
  | case1 s hmatch ih =>
    intro _
    rw [replaceAll_pos rep hmatch.1 hmatch.2]
    exact containsTok_of_isPrefixOf
      (List.isPrefixOf_iff_prefix.mpr (List.prefix_append rep _))
  | case2 h1 h2 =>
    intro hcon
    obtain ⟨p0, prest, rfl⟩ := List.exists_cons_of_ne_nil hpat
    simp [containsTok, List.isPrefixOf] at hcon
  | case3 c t h1 h2 ih =>
    intro hcont
    rw [replaceAll_cons_neg rep h1]
    apply containsTok_cons
    apply ih
    simp only [containsTok, Bool.or_eq_true] at hcont
    rcases hcont with hcont | hcont
    · exact absurd ⟨hcont, hpat⟩ h1
    · exact hcont

end TITO

namespace TITO

/-- A prefix over characters absent from the pattern is still a prefix after
substitution. -/
theorem isPrefixOf_replaceAll_of_disj (pat rep : List Char) :
    ∀ s q : List Char, (∀ c ∈ q, c ∉ pat) → q.isPrefixOf s = true →
      q.isPrefixOf (replaceAll pat rep s) = true := by
  intro s
  induction s using replaceAll.induct pat rep with
  | case1 s hmatch ih =>
    intro q hq hpre
    cases q with
    | nil => simp [List.isPrefixOf]
    | cons q0 q' =>
      exfalso
      obtain ⟨p0, prest, rfl⟩ := List.exists_cons_of_ne_nil hmatch.2
      have hs : ∃ s', s = p0 :: s' := by
        cases s with
        | nil => simp [List.isPrefixOf] at hmatch
        | cons s0 st =>
          have := hmatch.1
          simp only [List.isPrefixOf, Bool.and_eq_true, beq_iff_eq] at this
          exact ⟨st, by rw [this.1]⟩
      obtain ⟨s', rfl⟩ := hs
      simp only [List.isPrefixOf, Bool.and_eq_true, beq_iff_eq] at hpre
      exact hq q0 (List.mem_cons_self q0 q') (hpre.1 ▸ List.mem_cons_self p0 prest)
  | case2 h1 h2 =>
    intro q hq hpre
    rwa [replaceAll_nil pat rep]
  | case3 c t h1 h2 ih =>
    intro q hq hpre
    rw [replaceAll_cons_neg rep h1]
    cases q with
    | nil => simp [List.isPrefixOf]
    | cons q0 q' =>
      simp only [List.isPrefixOf, Bool.and_eq_true, beq_iff_eq] at hpre ⊢
      exact ⟨hpre.1, ih q' (fun ch hch => hq ch (List.mem_cons_of_mem q0 hch)) hpre.2⟩

/-- An occurrence of a string over characters absent from the pattern
survives substitution. -/
theorem containsTok_replaceAll_of_disj (pat rep : List Char) :
    ∀ s q : List Char, q ≠ [] → (∀ c ∈ q, c ∉ pat) → containsTok q s = true →
      containsTok q (replaceAll pat rep s) = true := by
  intro s
  induction s using replaceAll.induct pat rep with
  | case1 s hmatch ih =>
    intro q hq hdisj hcont
    rw [replaceAll_pos rep hmatch.1 hmatch.2]
    apply containsTok_append_right
    apply ih q hq hdisj
    obtain ⟨rest, hrest⟩ := List.isPrefixOf_iff_prefix.mp hmatch.1
    have hdropeq : s.drop pat.length = rest := by
      rw [← hrest, List.drop_left]
    rw [hdropeq]
    rw [← hrest] at hcont
    rcases containsTok_append_cases q pat rest hcont with h1 | ⟨k, hk, hpre⟩
    · exact h1
    · exfalso
      obtain ⟨q0, q', rfl⟩ := List.exists_cons_of_ne_nil hq
      exact hdisj q0 (List.mem_cons_self q0 q')
        (head_mem_of_isPrefixOf_drop pat rest k hk hpre)
  | case2 h1 h2 =>
    intro q hq hdisj hcont
    rwa [replaceAll_nil pat rep]
  | case3 c t h1 h2 ih =>
    intro q hq hdisj hcont
    rw [replaceAll_cons_neg rep h1]
    simp only [containsTok, Bool.or_eq_true] at hcont ⊢
    rcases hcont with hcont | hcont
    · left
      have := isPrefixOf_replaceAll_of_disj pat rep (c :: t) q hdisj hcont
      rwa [replaceAll_cons_neg rep h1] at this
    · exact Or.inr (ih q hq hdisj hcont)

end TITO

namespace TITO

/-- A prefix avoiding the pattern's leading character is still a prefix after
substitution. -/
theorem isPrefixOf_replaceAll_of_head_free (p0 : Char) (prest rep : List Char) :
    ∀ s q : List Char, p0 ∉ q → q.isPrefixOf s = true →
      q.isPrefixOf (replaceAll (p0 :: prest) rep s) = true := by
  intro s
  induction s using replaceAll.induct (p0 :: prest) rep with
  | case1 s hmatch ih =>
    intro q hq hpre
    cases q with
    | nil => simp [List.isPrefixOf]
    | cons q0 q' =>
      exfalso
      have hs : ∃ s', s = p0 :: s' := by
        cases s with
        | nil => simp [List.isPrefixOf] at hmatch
        | cons s0 st =>
          have := hmatch.1
          simp only [List.isPrefixOf, Bool.and_eq_true, beq_iff_eq] at this
          exact ⟨st, by rw [this.1]⟩
      obtain ⟨s', rfl⟩ := hs
      simp only [List.isPrefixOf, Bool.and_eq_true, beq_iff_eq] at hpre
      exact hq (hpre.1 ▸ List.mem_cons_self q0 q')
  | case2 h1 h2 =>
    intro q hq hpre
    rwa [replaceAll_nil (p0 :: prest) rep]
  | case3 c t h1 h2 ih =>
    intro q hq hpre
    rw [replaceAll_cons_neg rep h1]
    cases q with
    | nil => simp [List.isPrefixOf]
    | cons q0 q' =>
      simp only [List.isPrefixOf, Bool.and_eq_true, beq_iff_eq] at hpre ⊢
      exact ⟨hpre.1, ih q' (fun hch => hq (List.mem_cons_of_mem q0 hch)) hpre.2⟩

/-- A placeholder token distinct from the substituted one (same leading
brace, no interior brace, neither a prefix of the other) is still a prefix
after substitution. -/
theorem isPrefixOf_replaceAll_token (p0 : Char) (prest rep : List Char)
    (q0 : Char) (q' : List Char) (hq' : p0 ∉ q')
    (hnp1 : ¬ (p0 :: prest).isPrefixOf (q0 :: q') = true)
    (hnp2 : ¬ (q0 :: q').isPrefixOf (p0 :: prest) = true) :
    ∀ s : List Char, (q0 :: q').isPrefixOf s = true →
      (q0 :: q').isPrefixOf (replaceAll (p0 :: prest) rep s) = true := by
  intro s
  induction s using replaceAll.induct (p0 :: prest) rep with
  | case1 s hmatch ih =>
    intro hpre
    exfalso
    rcases List.prefix_or_prefix_of_prefix (List.isPrefixOf_iff_prefix.mp hmatch.1)
      (List.isPrefixOf_iff_prefix.mp hpre) with hc | hc
    · exact hnp1 (List.isPrefixOf_iff_prefix.mpr hc)
    · exact hnp2 (List.isPrefixOf_iff_prefix.mpr hc)
  | case2 h1 h2 =>
    intro hpre
    simp [List.isPrefixOf] at hpre
  | case3 c t h1 h2 ih =>
    intro hpre
    rw [replaceAll_cons_neg rep h1]
    simp only [List.isPrefixOf, Bool.and_eq_true, beq_iff_eq] at hpre ⊢
    exact ⟨hpre.1, isPrefixOf_replaceAll_of_head_free p0 prest rep t q' hq' hpre.2⟩

/-- An occurrence of a placeholder token distinct from the substituted one
survives substitution. -/
theorem containsTok_replaceAll_token (p0 : Char) (prest rep : List Char)
    (q' : List Char) (hq' : p0 ∉ q') (hp0prest : p0 ∉ prest)
    (hnp1 : ¬ (p0 :: prest).isPrefixOf (p0 :: q') = true)
    (hnp2 : ¬ (p0 :: q').isPrefixOf (p0 :: prest) = true) :
    ∀ s : List Char, containsTok (p0 :: q') s = true →
      containsTok (p0 :: q') (replaceAll (p0 :: prest) rep s) = true := by
  intro s
  induction s using replaceAll.induct (p0 :: prest) rep with
  | case1 s hmatch ih =>
    intro hcont
    rw [replaceAll_pos rep hmatch.1 hmatch.2]
    obtain ⟨rest, hrest⟩ := List.isPrefixOf_iff_prefix.mp hmatch.1
    have hdropeq : s.drop (p0 :: prest).length = rest := by
      rw [← hrest, List.drop_left]
    rw [← hrest] at hcont
    rcases containsTok_append_cases (p0 :: q') (p0 :: prest) rest hcont with h1 | ⟨k, hk, hpre⟩
    · exact containsTok_append_right rep (ih (hdropeq ▸ h1))
    · exfalso
      match k, hk with
      | 0, _ =>
        rw [List.drop_zero] at hpre
        rcases List.prefix_or_prefix_of_prefix (List.isPrefixOf_iff_prefix.mp hpre)
          (List.prefix_append (p0 :: prest) rest) with hc | hc
        · exact hnp2 (List.isPrefixOf_iff_prefix.mpr hc)
        · exact hnp1 (List.isPrefixOf_iff_prefix.mpr hc)
      | k' + 1, hk =>
        rw [List.drop_succ_cons] at hpre
        have hklen : k' < prest.length := by
          simp only [List.length_cons] at hk
          omega
        exact hp0prest (head_mem_of_isPrefixOf_drop prest rest k' hklen hpre)
  | case2 h1 h2 =>
    intro hcont
    simp [containsTok, List.isPrefixOf] at hcont
  | case3 c t h1 h2 ih =>
    intro hcont
    rw [replaceAll_cons_neg rep h1]
    simp only [containsTok, Bool.or_eq_true] at hcont ⊢
    rcases hcont with hcont | hcont
    · left
      have := isPrefixOf_replaceAll_token p0 prest rep p0 q' hq' hnp1 hnp2 (c :: t) hcont
      rwa [replaceAll_cons_neg rep h1] at this
    · exact Or.inr (ih hcont)

end TITO

namespace TITO

/-- The characters that occur in at least one recognized placeholder token. -/
def tokenChars : List Char :=
  ['{', '}', 'A', 'B', 'D', 'E', 'G', 'H', 'I', 'L', 'M', 'N', 'O', 'P', 'R',
   'S', 'T', 'U', 'W', 'Y']

/-- A recognized placeholder token: a leading brace and a brace-free tail. -/
def tokenShaped (p : List Char) : Prop :=
  p.head? = some '{' ∧ '{' ∉ p.tail

/-- Two tokens neither of which is a prefix of the other. -/
def tokDistinct (p q : List Char) : Prop :=
  ¬ p.isPrefixOf q = true ∧ ¬ q.isPrefixOf p = true

/-- Sequential substitution of a table of (token, value) pairs, leftmost
first — the shape of the `re.sub` cascade in `write_control_file`. -/
def renderSubs (subs : List (List Char × List Char)) (line : List Char) : List Char :=
  subs.foldl (fun l pr => replaceAll pr.1 pr.2 l) line

theorem renderSubs_nil (line : List Char) : renderSubs [] line = line := rfl

theorem renderSubs_cons (hd : List Char × List Char) (rest : List (List Char × List Char))
    (line : List Char) :
    renderSubs (hd :: rest) line = renderSubs rest (replaceAll hd.1 hd.2 line) := rfl

theorem tokenShaped_ex {p : List Char} (h : tokenShaped p) :
    ∃ prest, p = '{' :: prest ∧ '{' ∉ prest := by
  obtain ⟨hhead, htail⟩ := h
  cases p with
  | nil => simp at hhead
  | cons c rest =>
    simp only [List.head?_cons, Option.some.injEq] at hhead
    exact ⟨rest, by rw [hhead], by simpa using htail⟩

/-- A value (no token characters) present in the line stays present. -/
theorem renderSubs_value_preserved (v : List Char) (hv : v ≠ [])
    (hvc : ∀ c ∈ v, c ∉ tokenChars) :
    ∀ (subs : List (List Char × List Char)),
      (∀ pr ∈ subs, pr.1 ≠ [] ∧ ∀ c ∈ pr.1, c ∈ tokenChars) →
      ∀ line, containsTok v line = true → containsTok v (renderSubs subs line) = true := by
  intro subs
  induction subs with
  | nil => exact fun _ line h => h
  | cons hd rest ih =>
    intro htok line h
    rw [renderSubs_cons]
    refine ih (fun pr hpr => htok pr (List.mem_cons_of_mem hd hpr)) _ ?_
    exact containsTok_replaceAll_of_disj hd.1 hd.2 line v hv
      (fun c hc hcp => hvc c hc ((htok hd (List.mem_cons_self hd rest)).2 c hcp)) h

/-- A token-charactered string absent from the line stays absent. -/
theorem renderSubs_absence_preserved (q : List Char) (hq : q ≠ [])
    (hqc : ∀ c ∈ q, c ∈ tokenChars) :
    ∀ (subs : List (List Char × List Char)),
      (∀ pr ∈ subs, pr.2 ≠ [] ∧ ∀ c ∈ pr.2, c ∉ tokenChars) →
      ∀ line, containsTok q line = false → containsTok q (renderSubs subs line) = false := by
  intro subs
  induction subs with
  | nil => exact fun _ line h => h
  | cons hd rest ih =>
    intro hval line h
    rw [renderSubs_cons]
    refine ih (fun pr hpr => hval pr (List.mem_cons_of_mem hd hpr)) _ ?_
    exact containsTok_replaceAll_of_not hd.1 hd.2 q
      (hval hd (List.mem_cons_self hd rest)).1 hq
      (fun c hc hcp => (hval hd (List.mem_cons_self hd rest)).2 c hcp (hqc c hc)) line h

/-- A token distinct from every substituted token stays present. -/
theorem renderSubs_token_preserved (q' : List Char) (hq' : '{' ∉ q') :
    ∀ (subs : List (List Char × List Char)),
      (∀ pr ∈ subs, tokenShaped pr.1) →
      (∀ pr ∈ subs, tokDistinct pr.1 ('{' :: q')) →
      ∀ line, containsTok ('{' :: q') line = true →
        containsTok ('{' :: q') (renderSubs subs line) = true := by
  intro subs
  induction subs with
  | nil => exact fun _ _ line h => h
  | cons hd rest ih =>
    intro hshape hdist line h
    rw [renderSubs_cons]
    refine ih (fun pr hpr => hshape pr (List.mem_cons_of_mem hd hpr))
      (fun pr hpr => hdist pr (List.mem_cons_of_mem hd hpr)) _ ?_
    obtain ⟨prest, hp, hptail⟩ := tokenShaped_ex (hshape hd (List.mem_cons_self hd rest))
    obtain ⟨hd1, hd2⟩ := hdist hd (List.mem_cons_self hd rest)
    rw [hp] at hd1 hd2 ⊢
    exact containsTok_replaceAll_token '{' prest hd.2 q' hq' hptail hd1 hd2 line h

/-- After the whole cascade, no substituted token occurs in the output. -/
theorem renderSubs_no_token_left :
    ∀ (subs : List (List Char × List Char)),
      (∀ pr ∈ subs, pr.1 ≠ [] ∧ ∀ c ∈ pr.1, c ∈ tokenChars) →
      (∀ pr ∈ subs, pr.2 ≠ [] ∧ ∀ c ∈ pr.2, c ∉ tokenChars) →
      ∀ line, ∀ pr ∈ subs, containsTok pr.1 (renderSubs subs line) = false := by
  intro subs
  induction subs with
  | nil => exact fun _ _ line pr hpr => absurd hpr (List.not_mem_nil pr)
  | cons hd rest ih =>
    intro htok hval line pr hpr
    rw [renderSubs_cons]
    rcases List.mem_cons.mp hpr with rfl | hpr2
    · refine renderSubs_absence_preserved pr.1
        (htok pr (List.mem_cons_self pr rest)).1
        (htok pr (List.mem_cons_self pr rest)).2 rest
        (fun pr2 hpr2 => hval pr2 (List.mem_cons_of_mem pr hpr2)) _ ?_
      exact containsTok_replaceAll_self pr.1 pr.2
        (htok pr (List.mem_cons_self pr rest)).1
        (hval pr (List.mem_cons_self pr rest)).1
        (fun c hc hcp => (hval pr (List.mem_cons_self pr rest)).2 c hc
          ((htok pr (List.mem_cons_self pr rest)).2 c hcp)) line
    · exact ih (fun pr2 hpr3 => htok pr2 (List.mem_cons_of_mem hd hpr3))
        (fun pr2 hpr3 => hval pr2 (List.mem_cons_of_mem hd hpr3)) _ pr hpr2

/-- Every token present in the input line leaves its value in the output. -/
theorem renderSubs_value_inserted :
    ∀ (subs : List (List Char × List Char)),
      (∀ pr ∈ subs, pr.1 ≠ [] ∧ ∀ c ∈ pr.1, c ∈ tokenChars) →
      (∀ pr ∈ subs, tokenShaped pr.1) →
      (∀ pr ∈ subs, pr.2 ≠ [] ∧ ∀ c ∈ pr.2, c ∉ tokenChars) →
      (subs.map Prod.fst).Pairwise tokDistinct →
      ∀ line, ∀ pr ∈ subs, containsTok pr.1 line = true →
        containsTok pr.2 (renderSubs subs line) = true := by
  intro subs
  induction subs with
  | nil => exact fun _ _ _ _ line pr hpr => absurd hpr (List.not_mem_nil pr)
  | cons hd rest ih =>
    intro htok hshape hval hpw line pr hpr hline
    have hpw2 : (∀ b ∈ rest.map Prod.fst, tokDistinct hd.1 b) ∧
        (rest.map Prod.fst).Pairwise tokDistinct := by
      rw [List.map_cons, List.pairwise_cons] at hpw
      exact hpw
    rw [renderSubs_cons]
    rcases List.mem_cons.mp hpr with rfl | hpr2
    · refine renderSubs_value_preserved pr.2
        (hval pr (List.mem_cons_self pr rest)).1
        (hval pr (List.mem_cons_self pr rest)).2 rest
        (fun pr2 hpr3 => htok pr2 (List.mem_cons_of_mem pr hpr3)) _ ?_
      exact containsTok_rep_replaceAll pr.1 pr.2
        (htok pr (List.mem_cons_self pr rest)).1 line hline
    · refine ih (fun pr2 hpr3 => htok pr2 (List.mem_cons_of_mem hd hpr3))
        (fun pr2 hpr3 => hshape pr2 (List.mem_cons_of_mem hd hpr3))
        (fun pr2 hpr3 => hval pr2 (List.mem_cons_of_mem hd hpr3))
        hpw2.2 _ pr hpr2 ?_
      obtain ⟨q', hq, hqtail⟩ := tokenShaped_ex (hshape pr (List.mem_cons_of_mem hd hpr2))
      obtain ⟨prest, hp, hptail⟩ := tokenShaped_ex (hshape hd (List.mem_cons_self hd rest))
      have hdst : tokDistinct hd.1 pr.1 :=
        hpw2.1 pr.1 (List.mem_map_of_mem Prod.fst hpr2)
      rw [hp, hq] at hdst
      rw [hq] at hline ⊢
      rw [hp]
      exact containsTok_replaceAll_token '{' prest hd.2 q' hqtail hptail
        hdst.1 hdst.2 line hline

/-- A line containing none of the tokens passes through unchanged. -/
theorem renderSubs_passthrough :
    ∀ (subs : List (List Char × List Char)) (line : List Char),
      (∀ pr ∈ subs, containsTok pr.1 line = false) → renderSubs subs line = line := by
  intro subs
  induction subs with
  | nil => exact fun line _ => rfl
  | cons hd rest ih =>
    intro line h
    rw [renderSubs_cons,
      replaceAll_of_not_containsTok hd.1 hd.2 line (h hd (List.mem_cons_self hd rest))]
    exact ih line (fun pr hpr => h pr (List.mem_cons_of_mem hd hpr))

end TITO

namespace TITO

instance (p q : List Char) : Decidable (tokDistinct p q) :=
  show Decidable (¬ p.isPrefixOf q = true ∧ ¬ q.isPrefixOf p = true) from inferInstance

instance (p : List Char) : Decidable (tokenShaped p) :=
  show Decidable (p.head? = some '{' ∧ '{' ∉ p.tail) from inferInstance

def tokOUTPUTPATH : List Char := ['{', 'O', 'U', 'T', 'P', 'U', 'T', 'P', 'A', 'T', 'H', '}']
def tokSTATESPATH : List Char := ['{', 'S', 'T', 'A', 'T', 'E', 'S', 'P', 'A', 'T', 'H', '}']
def tokTIMEBEGIN : List Char := ['{', 'T', 'I', 'M', 'E', 'B', 'E', 'G', 'I', 'N', '}']
def tokTIMEBEGINLR : List Char := ['{', 'T', 'I', 'M', 'E', 'B', 'E', 'G', 'I', 'N', 'L', 'R', '}']
def tokTIMEWARMEND : List Char := ['{', 'T', 'I', 'M', 'E', 'W', 'A', 'R', 'M', 'E', 'N', 'D', '}']
def tokTIMESTATE : List Char := ['{', 'T', 'I', 'M', 'E', 'S', 'T', 'A', 'T', 'E', '}']
def tokTIMEEND : List Char := ['{', 'T', 'I', 'M', 'E', 'E', 'N', 'D', '}']
def tokSYSTEMMODEL : List Char := ['{', 'S', 'Y', 'S', 'T', 'E', 'M', 'M', 'O', 'D', 'E', 'L', '}']

def placeholderTokens : List (List Char) :=
  [tokOUTPUTPATH, tokSTATESPATH, tokTIMEBEGIN, tokTIMEBEGINLR, tokTIMEWARMEND,
   tokTIMESTATE, tokTIMEEND, tokSYSTEMMODEL]

def goodValue (v : List Char) : Prop := v ≠ [] ∧ ∀ c ∈ v, c ∉ tokenChars

def write_control_file_subs (outputPath statesPath timeBegin timeBeginLR
    timeWarmEnd timeState timeEnd systemModel : List Char) :
    List (List Char × List Char) :=
  [(tokOUTPUTPATH, outputPath), (tokSTATESPATH, statesPath),
   (tokTIMEBEGIN, timeBegin), (tokTIMEBEGINLR, timeBeginLR),
   (tokTIMEWARMEND, timeWarmEnd), (tokTIMESTATE, timeState),
   (tokTIMEEND, timeEnd), (tokSYSTEMMODEL, systemModel)]

def write_control_file_line (outputPath statesPath timeBegin timeBeginLR
    timeWarmEnd timeState timeEnd systemModel line : List Char) : List Char :=
  renderSubs (write_control_file_subs outputPath statesPath timeBegin timeBeginLR
    timeWarmEnd timeState timeEnd systemModel) line

/-- C9.  For every template text, rendering substitutes every occurrence of
each of the eight recognized placeholder tokens with its resolved value, so
the rendered control file contains the exact resolved values and zero
remaining recognized placeholders; any text that is not a recognized
placeholder (including unknown tokens) is passed through verbatim, so a
template with no placeholders is rendered unchanged.  Stated per line, as the
source substitutes line by line; the resolved values are assumed nonempty and
free of token characters (braces and the tokens' uppercase letters), as the
`YYYYMMDDHHMM` timestamps, lowercase paths and model names of the
configuration are. -/
theorem C9_render (oP sP tB tBLR tWE tS tE sM : List Char)
    (h1 : goodValue oP) (h2 : goodValue sP) (h3 : goodValue tB) (h4 : goodValue tBLR)
    (h5 : goodValue tWE) (h6 : goodValue tS) (h7 : goodValue tE) (h8 : goodValue sM) :
    ∀ line : List Char,
      (∀ tok ∈ placeholderTokens,
        containsTok tok (write_control_file_line oP sP tB tBLR tWE tS tE sM line) = false) ∧
      (∀ pr ∈ write_control_file_subs oP sP tB tBLR tWE tS tE sM,
        containsTok pr.1 line = true →
          containsTok pr.2 (write_control_file_line oP sP tB tBLR tWE tS tE sM line) = true) ∧
      ((∀ tok ∈ placeholderTokens, containsTok tok line = false) →
        write_control_file_line oP sP tB tBLR tWE tS tE sM line = line) := by
  intro line
  have hfst : (write_control_file_subs oP sP tB tBLR tWE tS tE sM).map Prod.fst =
      placeholderTokens := rfl
  have w : ∀ tok ∈ placeholderTokens,
      tok ≠ [] ∧ (∀ c ∈ tok, c ∈ tokenChars) ∧ tokenShaped tok := by decide
  have hmem1 : ∀ pr ∈ write_control_file_subs oP sP tB tBLR tWE tS tE sM,
      pr.1 ∈ placeholderTokens :=
    fun pr hpr => hfst ▸ List.mem_map_of_mem Prod.fst hpr
  have htok : ∀ pr ∈ write_control_file_subs oP sP tB tBLR tWE tS tE sM,
      pr.1 ≠ [] ∧ ∀ c ∈ pr.1, c ∈ tokenChars :=
    fun pr hpr => ⟨(w pr.1 (hmem1 pr hpr)).1, (w pr.1 (hmem1 pr hpr)).2.1⟩
  have hshape : ∀ pr ∈ write_control_file_subs oP sP tB tBLR tWE tS tE sM,
      tokenShaped pr.1 :=
    fun pr hpr => (w pr.1 (hmem1 pr hpr)).2.2
  have hval : ∀ pr ∈ write_control_file_subs oP sP tB tBLR tWE tS tE sM,
      pr.2 ≠ [] ∧ ∀ c ∈ pr.2, c ∉ tokenChars := by
    intro pr hpr
    fin_cases hpr
    exacts [h1, h2, h3, h4, h5, h6, h7, h8]
  have hpw : ((write_control_file_subs oP sP tB tBLR tWE tS tE sM).map Prod.fst).Pairwise
      tokDistinct := by
    rw [hfst]
    decide
  refine ⟨?_, ?_, ?_⟩
  · intro tok htokmem
    rw [← hfst] at htokmem
    obtain ⟨pr, hpr, rfl⟩ := List.mem_map.mp htokmem
    exact renderSubs_no_token_left _ htok hval line pr hpr
  · intro pr hpr h
    exact renderSubs_value_inserted _ htok hshape hval hpw line pr hpr h
  · intro hnone
    apply renderSubs_passthrough
    intro pr hpr
    exact hnone pr.1 (hfst ▸ List.mem_map_of_mem Prod.fst hpr)

def valOut : List Char := ['o', 'u', 't', '/']
def valStates : List Char := ['s', 't', '/']
def valT1 : List Char := ['2', '0', '2', '4', '0', '7', '0', '4', '0', '4', '3', '0']
def valT2 : List Char := ['2', '0', '2', '4', '0', '7', '0', '4', '0', '9', '0', '0']
def valT3 : List Char := ['2', '0', '2', '4', '0', '7', '0', '4', '0', '5', '0', '0']
def valT4 : List Char := ['2', '0', '2', '4', '0', '7', '0', '4', '0', '5', '3', '0']
def valT5 : List Char := ['2', '0', '2', '4', '0', '7', '0', '4', '1', '5', '0', '0']
def valModel : List Char := ['c', 'r', 'e', 's', 't']

def lineTIMEENDx : List Char := tokTIMEEND ++ ['x']

/-- C9 witness: rendering the line `{TIMEEND}x` with concrete configuration
values replaces the token by the timestamp value and leaves no recognized
placeholder. -/
theorem C9_render_witness :
    containsTok tokTIMEEND (write_control_file_line valOut valStates valT1 valT2
      valT3 valT4 valT5 valModel lineTIMEENDx) = false ∧
    containsTok valT5 (write_control_file_line valOut valStates valT1 valT2
      valT3 valT4 valT5 valModel lineTIMEENDx) = true := by
  have h := C9_render valOut valStates valT1 valT2 valT3 valT4 valT5 valModel
    ⟨by decide, by decide⟩ ⟨by decide, by decide⟩ ⟨by decide, by decide⟩
    ⟨by decide, by decide⟩ ⟨by decide, by decide⟩ ⟨by decide, by decide⟩
    ⟨by decide, by decide⟩ ⟨by decide, by decide⟩ lineTIMEENDx
  exact ⟨h.1 tokTIMEEND (by decide),
    h.2.1 (tokTIMEEND, valT5) (by decide) (by decide)⟩

end TITO
